import Mathlib

/-!
Verification of the GEMM benchmark specification.

The repository consists of two benchmark scripts (`numpy_gemm.py`,
`numpy_tranpose.py`) that delegate the matrix multiply and transpose to an
external numerical library.  The specification describes the minimal core
such a benchmark measures: a dense matrix data model, a GEMM kernel
`multiply`, and a benchmark harness `run`.  Those components are not present
under `src/` (the scripts only call the external library), so they are
modelled here from the specification; arithmetic is modelled exactly over ℚ
(the spec's 32-bit floats idealised, with accumulation order irrelevant in
exact arithmetic).
-/

namespace Gemm

/-- Modelled from the spec: the Matrix data model of §3 — `rows`, `cols`, and
row-major `data` of length `rows * cols` (element `(i, j)` at
`data[i*cols + j]`). -/
structure Matrix where
  rows : Nat
  cols : Nat
  data : List ℚ
  hlen : data.length = rows * cols

/-- Modelled from the spec: `get(i, j)` reads the row-major store at
`i*cols + j` (in-bounds accesses only are used by the kernel). -/
def Matrix.get (m : Matrix) (i j : Nat) : ℚ :=
  m.data.getD (i * m.cols + j) 0

/-- Modelled from the spec: the error taxonomy of §7. -/
inductive GemmError where
  | InvalidDimension
  | LengthMismatch
  | IndexOutOfRange
  | DimensionMismatch
  | ZeroIterations
  deriving DecidableEq, Repr

/-- Modelled from the spec: the element `(i,j)` of the product,
`Σ_{k=0}^{a.cols-1} a[i,k] * b[k,j]` (§4.2). -/
def mulEntry (a b : Matrix) (i j : Nat) : ℚ :=
  ∑ k in Finset.range a.cols, a.get i k * b.get k j

/-- Modelled from the spec: the output matrix of `multiply`, shape
`(a.rows, b.cols)`, stored row-major. -/
def mulResult (a b : Matrix) : Matrix where
  rows := a.rows
  cols := b.cols
  data := (List.range (a.rows * b.cols)).map
    (fun idx => mulEntry a b (idx / b.cols) (idx % b.cols))
  hlen := by simp

/-- Modelled from the spec: the GEMM kernel contract of §4.2 —
`multiply(a, b)` requires `a.cols == b.rows`, fails with `DimensionMismatch`
otherwise, and returns the `(a.rows, b.cols)` product matrix. -/
def multiply (a b : Matrix) : Except GemmError Matrix :=
  if a.cols = b.rows then Except.ok (mulResult a b)
  else Except.error GemmError.DimensionMismatch

lemma getD_map_range (f : Nat → ℚ) (L p : Nat) (hp : p < L) :
    (((List.range L).map f).getD p 0) = f p := by
  rw [List.getD_eq_getElem?_getD]
  rw [List.getElem?_eq_getElem (by simpa using hp)]
  simp

lemma mulResult_get (a b : Matrix) (i j : Nat)
    (hi : i < a.rows) (hj : j < b.cols) :
    (mulResult a b).get i j = mulEntry a b i j := by
  have hcols : (mulResult a b).cols = b.cols := rfl
  have hlt : i * b.cols + j < a.rows * b.cols := by
    calc i * b.cols + j < i * b.cols + b.cols := by omega
    _ = (i + 1) * b.cols := by ring
    _ ≤ a.rows * b.cols := Nat.mul_le_mul_right _ (by omega)
  have hbpos : 0 < b.cols := by omega
  unfold Matrix.get mulResult
  simp only [hcols]
  rw [getD_map_range _ _ _ hlt]
  congr 1
  · rw [Nat.add_comm, Nat.add_mul_div_right _ _ hbpos, Nat.div_eq_of_lt hj]
    omega
  · rw [Nat.add_comm, Nat.add_mul_mod_self_right, Nat.mod_eq_of_lt hj]

lemma multiply_eq_ok (a b : Matrix) (h : a.cols = b.rows) :
    multiply a b = Except.ok (mulResult a b) := by
  simp [multiply, h]

lemma multiply_eq_error (a b : Matrix) (h : a.cols ≠ b.rows) :
    multiply a b = Except.error GemmError.DimensionMismatch := by
  simp [multiply, h]

/-- Modelled from the spec: a Measurement of §4.3,
`{elapsedSeconds, gflops}`. -/
structure Measurement where
  elapsedSeconds : ℚ
  gflops : ℚ
  deriving DecidableEq, Repr

/-- Modelled from the spec: one harness iteration of §4.3 — read the
monotonic clock, invoke the kernel (its output is discarded), read the clock
again, and record `elapsedSeconds = t1 - t0` and
`gflops = (2 * a.rows * a.cols * b.cols) / elapsedSeconds / 1e9`.  The clock
is modelled as the sequence of its successive readings; iteration `i` takes
readings `2*i` and `2*i + 1`. -/
def runIteration (kernel : Matrix → Matrix → Except GemmError Matrix)
    (a b : Matrix) (clock : Nat → ℚ) (i : Nat) : Measurement :=
  let t0 := clock (2 * i)
  let _discarded := kernel a b
  let t1 := clock (2 * i + 1)
  let elapsed := t1 - t0
  { elapsedSeconds := elapsed
    gflops := ((2 * a.rows * a.cols * b.cols : Nat) : ℚ) / elapsed / 1000000000 }

/-- Modelled from the spec: the benchmark harness `run` of §4.3 — fails with
`ZeroIterations` if `iterations <= 0`, otherwise performs one timed kernel
invocation per iteration and returns the sequence of Measurements. -/
def run (kernel : Matrix → Matrix → Except GemmError Matrix)
    (a b : Matrix) (iterations : Int) (clock : Nat → ℚ) :
    Except GemmError (List Measurement) :=
  if iterations ≤ 0 then Except.error GemmError.ZeroIterations
  else Except.ok ((List.range iterations.toNat).map (runIteration kernel a b clock))

/-- The transpose of a square-or-rectangular row-major matrix, as computed by
`np.transpose` in `numpy_tranpose.py`: the result has shape
`(cols, rows)` and its element `(i, j)` is the input's element `(j, i)`. -/
def transpose (m : Matrix) : Matrix where
  rows := m.cols
  cols := m.rows
  data := (List.range (m.cols * m.rows)).map
    (fun idx => m.get (idx % m.rows) (idx / m.rows))
  hlen := by simp

/-- Row-major serialization of a matrix, as computed by
`.tobytes(order="C")` in `numpy_tranpose.py`: the flat row-major backing
sequence. -/
def serializeRowMajor (m : Matrix) : List ℚ :=
  m.data

/-- Column-major serialization of a matrix: the columns listed one after
another, column `i` being `[m[0,i], ..., m[rows-1,i]]`. -/
def serializeColMajor (m : Matrix) : List ℚ :=
  ((List.range m.cols).map
    (fun i => (List.range m.rows).map (fun j => m.get j i))).flatten

/-- The sample matrix `sample_m1` of `numpy_gemm.py`. -/
def sample_m1 : Matrix where
  rows := 3
  cols := 3
  data := [1, 3, 2, 2, 0, 1, 1, 2, 0]
  hlen := by decide

/-- The sample matrix `sample_m2` of `numpy_gemm.py`. -/
def sample_m2 : Matrix where
  rows := 3
  cols := 4
  data := [3, 0, 1, 1, 1, 0, 1, 1, 0, 1, 2, 1]
  hlen := by decide

/-- Modelled from the spec: the n×n identity matrix `I_n` (diagonal ones). -/
def identityMatrix (n : Nat) : Matrix where
  rows := n
  cols := n
  data := (List.range (n * n)).map
    (fun idx => if idx / n = idx % n then 1 else 0)
  hlen := by simp

/-- A clock whose n-th reading is n seconds: a concrete strictly monotonic
clock used to instantiate harness theorems. -/
def natClock : Nat → ℚ := fun n => (n : ℚ)

/-- The 0×0 matrix. -/
def emptyMatrix : Matrix := ⟨0, 0, [], rfl⟩

/-- A 1×1 matrix holding a single 1. -/
def unitMatrix : Matrix := ⟨1, 1, [1], rfl⟩

lemma identityMatrix_get (n i j : Nat) (hi : i < n) (hj : j < n) :
    (identityMatrix n).get i j = if i = j then 1 else 0 := by
  have hlt : i * n + j < n * n := by
    calc i * n + j < i * n + n := by omega
    _ = (i + 1) * n := by ring
    _ ≤ n * n := Nat.mul_le_mul_right _ (by omega)
  have hnpos : 0 < n := by omega
  unfold Matrix.get identityMatrix
  simp only
  rw [getD_map_range _ _ _ hlt]
  have hdiv : (i * n + j) / n = i := by
    rw [Nat.add_comm, Nat.add_mul_div_right _ _ hnpos, Nat.div_eq_of_lt hj]
    omega
  have hmod : (i * n + j) % n = j := by
    rw [Nat.add_comm, Nat.add_mul_mod_self_right, Nat.mod_eq_of_lt hj]
  rw [hdiv, hmod]

lemma mulEntry_identity_left (n : Nat) (A : Matrix) (i j : Nat)
    (hi : i < n) : mulEntry (identityMatrix n) A i j = A.get i j := by
  unfold mulEntry
  have hcols : (identityMatrix n).cols = n := rfl
  rw [hcols]
  rw [Finset.sum_congr rfl (fun k hk => by
    rw [identityMatrix_get n i k hi (Finset.mem_range.mp hk), ite_mul, one_mul,
      zero_mul])]
  rw [Finset.sum_ite_eq]
  simp [Finset.mem_range.mpr hi]

lemma mulEntry_identity_right (n : Nat) (A : Matrix) (i j : Nat)
    (hj : j < n) (hc : A.cols = n) :
    mulEntry A (identityMatrix n) i j = A.get i j := by
  unfold mulEntry
  rw [hc]
  rw [Finset.sum_congr rfl (fun k hk => by
    rw [identityMatrix_get n k j (Finset.mem_range.mp hk) hj, mul_ite, mul_one,
      mul_zero])]
  rw [Finset.sum_ite_eq']
  simp [Finset.mem_range.mpr hj]

lemma mulEntry_assoc (A B C : Matrix) (i j : Nat)
    (h1 : A.cols = B.rows)
    (hi : i < A.rows) (hj : j < C.cols) :
    mulEntry (mulResult A B) C i j = mulEntry A (mulResult B C) i j := by
  have lhs1 : mulEntry (mulResult A B) C i j
      = ∑ k in Finset.range B.cols,
          (∑ p in Finset.range A.cols, A.get i p * B.get p k) * C.get k j := by
    refine Finset.sum_congr rfl (fun k hk => ?_)
    rw [mulResult_get A B i k hi (Finset.mem_range.mp hk)]
    rfl
  have rhs1 : mulEntry A (mulResult B C) i j
      = ∑ p in Finset.range A.cols, A.get i p
          * ∑ k in Finset.range B.cols, B.get p k * C.get k j := by
    refine Finset.sum_congr rfl (fun p hp => ?_)
    rw [mulResult_get B C p j (h1 ▸ Finset.mem_range.mp hp) hj]
    rfl
  rw [lhs1, rhs1]
  calc ∑ k in Finset.range B.cols,
        (∑ p in Finset.range A.cols, A.get i p * B.get p k) * C.get k j
      = ∑ k in Finset.range B.cols, ∑ p in Finset.range A.cols,
          A.get i p * B.get p k * C.get k j :=
        Finset.sum_congr rfl (fun k _ => Finset.sum_mul _ _ _)
    _ = ∑ p in Finset.range A.cols, ∑ k in Finset.range B.cols,
          A.get i p * B.get p k * C.get k j := Finset.sum_comm
    _ = ∑ p in Finset.range A.cols, A.get i p
          * ∑ k in Finset.range B.cols, B.get p k * C.get k j := by
        refine Finset.sum_congr rfl (fun p _ => ?_)
        rw [Finset.mul_sum]
        exact Finset.sum_congr rfl (fun k _ => mul_assoc _ _ _)

lemma run_pos (kernel : Matrix → Matrix → Except GemmError Matrix)
    (a b : Matrix) (iterations : Int) (clock : Nat → ℚ)
    (h : 0 < iterations) :
    run kernel a b iterations clock
      = Except.ok ((List.range iterations.toNat).map
          (runIteration kernel a b clock)) := by
  simp [run, not_le.mpr h, Int.not_le.mpr h]

lemma runIteration_elapsed (kernel : Matrix → Matrix → Except GemmError Matrix)
    (a b : Matrix) (clock : Nat → ℚ) (i : Nat) :
    (runIteration kernel a b clock i).elapsedSeconds
      = clock (2 * i + 1) - clock (2 * i) := rfl

lemma runIteration_gflops (kernel : Matrix → Matrix → Except GemmError Matrix)
    (a b : Matrix) (clock : Nat → ℚ) (i : Nat) :
    (runIteration kernel a b clock i).gflops
      = ((2 * a.rows * a.cols * b.cols : Nat) : ℚ)
          / (runIteration kernel a b clock i).elapsedSeconds / 1000000000 := rfl

end Gemm

deriving instance DecidableEq for Except

namespace Gemm

/-- C1: for every pair of matrices with `a.cols = b.rows`, `multiply a b`
succeeds with a matrix of shape `(a.rows, b.cols)` whose element `(i, j)` is
`Σ_{k=0}^{a.cols-1} a[i,k] * b[k,j]`. -/
theorem C1_multiply_shape_and_elements (a b : Matrix) (h : a.cols = b.rows) :
    ∃ c, multiply a b = Except.ok c ∧ c.rows = a.rows ∧ c.cols = b.cols ∧
      ∀ i j, i < a.rows → j < b.cols →
        c.get i j = ∑ k in Finset.range a.cols, a.get i k * b.get k j := by
  refine ⟨mulResult a b, multiply_eq_ok a b h, rfl, rfl, fun i j hi hj => ?_⟩
  rw [mulResult_get a b i j hi hj]
  rfl

/-- Witness for C1 at the concrete sample matrices of `numpy_gemm.py`. -/
theorem C1_multiply_shape_and_elements_witness :
    sample_m1.cols = sample_m2.rows ∧
    ∃ c, multiply sample_m1 sample_m2 = Except.ok c ∧ c.rows = sample_m1.rows
      ∧ c.cols = sample_m2.cols ∧
      ∀ i j, i < sample_m1.rows → j < sample_m2.cols →
        c.get i j = ∑ k in Finset.range sample_m1.cols,
          sample_m1.get i k * sample_m2.get k j :=
  ⟨rfl, C1_multiply_shape_and_elements sample_m1 sample_m2 rfl⟩

/-- C2: on the concrete sample inputs of `numpy_gemm.py`,
`multiply sample_m1 sample_m2` returns exactly the 3×4 matrix
`[[6,2,8,6],[6,1,4,3],[5,0,3,3]]`, with every element exact. -/
theorem C2_golden_sample :
    ∃ c, multiply sample_m1 sample_m2 = Except.ok c ∧ c.rows = 3 ∧ c.cols = 4
      ∧ c.data = [6, 2, 8, 6, 6, 1, 4, 3, 5, 0, 3, 3] :=
  ⟨mulResult sample_m1 sample_m2, multiply_eq_ok sample_m1 sample_m2 rfl,
    rfl, rfl, by with_unfolding_all decide⟩

/-- C3: `multiply a b` fails with `DimensionMismatch` exactly when
`a.cols ≠ b.rows`, and on that failure no output matrix is produced. -/
theorem C3_dimension_mismatch (a b : Matrix) :
    (multiply a b = Except.error GemmError.DimensionMismatch ↔ a.cols ≠ b.rows)
    ∧ (a.cols ≠ b.rows → ∀ c, multiply a b ≠ Except.ok c) := by
  constructor
  · constructor
    · intro herr heq
      rw [multiply_eq_ok a b heq] at herr
      exact Except.noConfusion herr
    · exact multiply_eq_error a b
  · intro hne c hok
    rw [multiply_eq_error a b hne] at hok
    exact Except.noConfusion hok

/-- Witness for C3 at a concrete mismatched pair (3×3 against 3×4 reversed). -/
theorem C3_dimension_mismatch_witness :
    (multiply sample_m2 sample_m1 = Except.error GemmError.DimensionMismatch
      ↔ sample_m2.cols ≠ sample_m1.rows)
    ∧ (sample_m2.cols ≠ sample_m1.rows →
        ∀ c, multiply sample_m2 sample_m1 ≠ Except.ok c) :=
  C3_dimension_mismatch sample_m2 sample_m1

/-- C4: multiplying by the identity on either side reproduces the matrix
element-wise within relative tolerance `1e-5` (exactly, in fact). -/
theorem C4_identity_multiplication (n : Nat) (A : Matrix)
    (hr : A.rows = n) (hc : A.cols = n) :
    ∃ L R, multiply (identityMatrix n) A = Except.ok L
      ∧ multiply A (identityMatrix n) = Except.ok R
      ∧ ∀ i j, i < n → j < n →
          |L.get i j - A.get i j| ≤ 1 / 100000 * |A.get i j|
          ∧ |R.get i j - A.get i j| ≤ 1 / 100000 * |A.get i j| := by
  have hIl : (identityMatrix n).cols = A.rows := by rw [hr]; rfl
  have hIr : A.cols = (identityMatrix n).rows := by rw [hc]; rfl
  refine ⟨mulResult (identityMatrix n) A, mulResult A (identityMatrix n),
    multiply_eq_ok _ _ hIl, multiply_eq_ok _ _ hIr, fun i j hi hj => ?_⟩
  have hL : (mulResult (identityMatrix n) A).get i j = A.get i j := by
    rw [mulResult_get _ _ i j (by exact hi) (by rw [hc]; exact hj)]
    exact mulEntry_identity_left n A i j hi
  have hR : (mulResult A (identityMatrix n)).get i j = A.get i j := by
    rw [mulResult_get _ _ i j (by rw [hr]; exact hi) (by exact hj)]
    exact mulEntry_identity_right n A i j hj hc
  rw [hL, hR]
  constructor <;> · rw [sub_self, abs_zero]; positivity

/-- Witness for C4 at a concrete 2×2 matrix. -/
theorem C4_identity_multiplication_witness :
    (⟨2, 2, [5, 7, -3, 4], rfl⟩ : Matrix).rows = 2
    ∧ (⟨2, 2, [5, 7, -3, 4], rfl⟩ : Matrix).cols = 2
    ∧ ∃ L R, multiply (identityMatrix 2) ⟨2, 2, [5, 7, -3, 4], rfl⟩
        = Except.ok L
      ∧ multiply (⟨2, 2, [5, 7, -3, 4], rfl⟩ : Matrix) (identityMatrix 2)
        = Except.ok R
      ∧ ∀ i j, i < 2 → j < 2 →
          |L.get i j - (⟨2, 2, [5, 7, -3, 4], rfl⟩ : Matrix).get i j|
            ≤ 1 / 100000 * |(⟨2, 2, [5, 7, -3, 4], rfl⟩ : Matrix).get i j|
          ∧ |R.get i j - (⟨2, 2, [5, 7, -3, 4], rfl⟩ : Matrix).get i j|
            ≤ 1 / 100000 * |(⟨2, 2, [5, 7, -3, 4], rfl⟩ : Matrix).get i j| :=
  ⟨rfl, rfl, C4_identity_multiplication 2 ⟨2, 2, [5, 7, -3, 4], rfl⟩ rfl rfl⟩

/-- C5: for compatible A, B, C, the two ways of associating the triple
product agree element-wise within tolerance `1e-3` (exactly, in fact). -/
theorem C5_multiply_associative (A B C : Matrix)
    (h1 : A.cols = B.rows) (h2 : B.cols = C.rows) :
    ∃ AB BC L R, multiply A B = Except.ok AB ∧ multiply B C = Except.ok BC
      ∧ multiply AB C = Except.ok L ∧ multiply A BC = Except.ok R
      ∧ ∀ i j, i < A.rows → j < C.cols →
          |L.get i j - R.get i j| ≤ 1 / 1000 := by
  refine ⟨mulResult A B, mulResult B C,
    mulResult (mulResult A B) C, mulResult A (mulResult B C),
    multiply_eq_ok A B h1, multiply_eq_ok B C h2,
    multiply_eq_ok _ _ h2, multiply_eq_ok _ _ h1, fun i j hi hj => ?_⟩
  rw [mulResult_get _ _ i j (by exact hi) (by exact hj),
    mulResult_get _ _ i j (by exact hi) (by exact hj),
    mulEntry_assoc A B C i j h1 hi hj, sub_self, abs_zero]
  norm_num

lemma flatten_map_range (f : Nat → Nat → ℚ) (M N : Nat) :
    ((List.range M).map (fun i => (List.range N).map (f i))).flatten
      = (List.range (M * N)).map (fun idx => f (idx / N) (idx % N)) := by
  induction M with
  | zero => simp
  | succ M ih =>
    rw [List.range_succ, List.map_append, List.flatten_append, ih,
      Nat.succ_mul, List.range_add, List.map_append, List.map_map]
    congr 1
    simp only [List.map_singleton, List.flatten_cons, List.flatten_nil,
      List.append_nil]
    refine List.map_congr_left (fun j hj => ?_)
    have hjN : j < N := List.mem_range.mp hj
    have hdiv : (M * N + j) / N = M := by
      rw [Nat.add_comm, Nat.add_mul_div_right _ _ (by omega),
        Nat.div_eq_of_lt hjN]
      omega
    have hmod : (M * N + j) % N = j := by
      rw [Nat.add_comm, Nat.add_mul_mod_self_right, Nat.mod_eq_of_lt hjN]
    simp only [Function.comp]
    rw [hdiv, hmod]

lemma transpose_data_getD (x : Matrix) (i j : Nat)
    (hi : i < x.cols) (hj : j < x.rows) :
    (transpose x).data.getD (i * x.rows + j) 0 = x.get j i := by
  have hlt : i * x.rows + j < x.cols * x.rows := by
    calc i * x.rows + j < i * x.rows + x.rows := by omega
    _ = (i + 1) * x.rows := by ring
    _ ≤ x.cols * x.rows := Nat.mul_le_mul_right _ (by omega)
  unfold transpose
  simp only
  rw [getD_map_range _ _ _ hlt]
  have hdiv : (i * x.rows + j) / x.rows = i := by
    rw [Nat.add_comm, Nat.add_mul_div_right _ _ (by omega),
      Nat.div_eq_of_lt hj]
    omega
  have hmod : (i * x.rows + j) % x.rows = j := by
    rw [Nat.add_comm, Nat.add_mul_mod_self_right, Nat.mod_eq_of_lt hj]
  rw [hdiv, hmod]

lemma transpose_serialize_eq_colMajor (x : Matrix) :
    serializeRowMajor (transpose x) = serializeColMajor x := by
  unfold serializeRowMajor serializeColMajor transpose
  simp only
  rw [flatten_map_range]

/-- Witness for C5 at concrete matrices (3×3, 3×4, 4×1). -/
theorem C5_multiply_associative_witness :
    sample_m1.cols = sample_m2.rows
    ∧ sample_m2.cols = (⟨4, 1, [1, 2, 3, 4], rfl⟩ : Matrix).rows
    ∧ ∃ AB BC L R, multiply sample_m1 sample_m2 = Except.ok AB
      ∧ multiply sample_m2 ⟨4, 1, [1, 2, 3, 4], rfl⟩ = Except.ok BC
      ∧ multiply AB ⟨4, 1, [1, 2, 3, 4], rfl⟩ = Except.ok L
      ∧ multiply sample_m1 BC = Except.ok R
      ∧ ∀ i j, i < sample_m1.rows → j < (⟨4, 1, [1, 2, 3, 4], rfl⟩ : Matrix).cols →
          |L.get i j - R.get i j| ≤ 1 / 1000 :=
  ⟨rfl, rfl, C5_multiply_associative sample_m1 sample_m2
    ⟨4, 1, [1, 2, 3, 4], rfl⟩ rfl rfl⟩

/-- C6 counterexample: with the compatible 0×0 inputs, `run` with
10 iterations succeeds with 10 Measurements, but their `gflops` is 0, not
positive, refuting the claim for arbitrary compatible inputs. -/
theorem C6_run_counterexample :
    emptyMatrix.cols = emptyMatrix.rows
    ∧ ∃ ms, run multiply emptyMatrix emptyMatrix 10 natClock = Except.ok ms
      ∧ ms.length = 10
      ∧ ¬ (∀ m ∈ ms, 0 < m.elapsedSeconds ∧ 0 < m.gflops) :=
  ⟨rfl, _, rfl, by with_unfolding_all decide, by with_unfolding_all decide⟩

/-- C6 (amended): for every kernel, a strictly advancing clock, and
compatible inputs with positive dimensions, `run` with 10 iterations returns
exactly 10 Measurements, each with positive `elapsedSeconds` and positive
`gflops`. -/
theorem C6_run_ten_measurements
    (kernel : Matrix → Matrix → Except GemmError Matrix)
    (a b : Matrix) (clock : Nat → ℚ)
    (hclock : ∀ i, clock (2 * i) < clock (2 * i + 1))
    (hra : 0 < a.rows) (hca : 0 < a.cols) (hcb : 0 < b.cols) :
    ∃ ms, run kernel a b 10 clock = Except.ok ms ∧ ms.length = 10
      ∧ ∀ m ∈ ms, 0 < m.elapsedSeconds ∧ 0 < m.gflops := by
  refine ⟨_, run_pos kernel a b 10 clock (by norm_num), by simp, ?_⟩
  intro m hm
  rw [List.mem_map] at hm
  obtain ⟨i, _, rfl⟩ := hm
  have helapsed : 0 < (runIteration kernel a b clock i).elapsedSeconds := by
    rw [runIteration_elapsed]
    exact sub_pos.mpr (hclock i)
  refine ⟨helapsed, ?_⟩
  rw [runIteration_gflops]
  refine div_pos (div_pos ?_ helapsed) (by norm_num)
  have : 0 < 2 * a.rows * a.cols * b.cols := by positivity
  exact_mod_cast this

/-- Witness for the amended C6 at 1×1 inputs and the unit-step clock. -/
theorem C6_run_ten_measurements_witness :
    (∀ i, natClock (2 * i) < natClock (2 * i + 1))
    ∧ 0 < unitMatrix.rows ∧ 0 < unitMatrix.cols ∧ 0 < unitMatrix.cols
    ∧ ∃ ms, run multiply unitMatrix unitMatrix 10 natClock = Except.ok ms
      ∧ ms.length = 10
      ∧ ∀ m ∈ ms, 0 < m.elapsedSeconds ∧ 0 < m.gflops := by
  have hclock : ∀ i, natClock (2 * i) < natClock (2 * i + 1) :=
    fun i => Nat.cast_lt.mpr (Nat.lt_succ_self (2 * i))
  exact ⟨hclock, by decide, by decide, by decide,
    C6_run_ten_measurements multiply unitMatrix unitMatrix natClock hclock
      (by decide) (by decide) (by decide)⟩

/-- C7: `run` with `iterations ≤ 0` fails with `ZeroIterations`, producing
no Measurements, and its result does not depend on the kernel (the kernel is
never invoked). -/
theorem C7_zero_iterations
    (kernel : Matrix → Matrix → Except GemmError Matrix)
    (a b : Matrix) (iterations : Int) (clock : Nat → ℚ)
    (h : iterations ≤ 0) :
    run kernel a b iterations clock = Except.error GemmError.ZeroIterations
    ∧ ∀ kernel2, run kernel a b iterations clock
        = run kernel2 a b iterations clock := by
  refine ⟨by simp [run, h], fun kernel2 => ?_⟩
  simp [run, h]

/-- Witness for C7 at `iterations = 0`. -/
theorem C7_zero_iterations_witness :
    (0 : Int) ≤ 0
    ∧ run multiply unitMatrix unitMatrix 0 natClock
        = Except.error GemmError.ZeroIterations
    ∧ ∀ kernel2, run multiply unitMatrix unitMatrix 0 natClock
        = run kernel2 unitMatrix unitMatrix 0 natClock :=
  ⟨by decide,
    C7_zero_iterations multiply unitMatrix unitMatrix 0 natClock (by decide)⟩

/-- C8: every Measurement produced by `run` takes its `elapsedSeconds` from
a pair of consecutive clock readings around one kernel invocation, and its
`gflops` equals `(2 * a.rows * a.cols * b.cols) / elapsedSeconds / 1e9`. -/
theorem C8_gflops_formula
    (kernel : Matrix → Matrix → Except GemmError Matrix)
    (a b : Matrix) (iterations : Int) (clock : Nat → ℚ)
    (ms : List Measurement)
    (h : run kernel a b iterations clock = Except.ok ms) :
    ∀ m ∈ ms, ∃ i,
      m.elapsedSeconds = clock (2 * i + 1) - clock (2 * i)
      ∧ m.gflops = ((2 * a.rows * a.cols * b.cols : Nat) : ℚ)
          / m.elapsedSeconds / 1000000000 := by
  by_cases hit : iterations ≤ 0
  · simp [run, hit] at h
  · push_neg at hit
    rw [run_pos kernel a b iterations clock hit] at h
    rw [Except.ok.injEq] at h
    subst h
    intro m hm
    rw [List.mem_map] at hm
    obtain ⟨i, _, rfl⟩ := hm
    exact ⟨i, rfl, rfl⟩

/-- Witness for C8 at one iteration on 1×1 inputs: the single Measurement is
`{elapsedSeconds := 1, gflops := 2e-9}`. -/
theorem C8_gflops_formula_witness :
    run multiply unitMatrix unitMatrix 1 natClock
      = Except.ok [⟨1, 1 / 500000000⟩]
    ∧ ∀ m ∈ ([⟨1, 1 / 500000000⟩] : List Measurement), ∃ i,
        m.elapsedSeconds = natClock (2 * i + 1) - natClock (2 * i)
        ∧ m.gflops
            = ((2 * unitMatrix.rows * unitMatrix.cols * unitMatrix.cols : Nat) : ℚ)
                / m.elapsedSeconds / 1000000000 := by
  have hrun : run multiply unitMatrix unitMatrix 1 natClock
      = Except.ok [⟨1, 1 / 500000000⟩] := by
    rw [run_pos multiply unitMatrix unitMatrix 1 natClock (by norm_num)]
    norm_num [List.range_succ, runIteration, natClock, unitMatrix]
  exact ⟨hrun, C8_gflops_formula multiply unitMatrix unitMatrix 1 natClock
    [⟨1, 1 / 500000000⟩] hrun⟩

/-- C10: serializing the transpose of an N×N matrix in row-major order puts
`x[j, i]` at flat position `i*N + j`, i.e. produces exactly the column-major
serialization of `x`. -/
theorem C10_transpose_serialization (x : Matrix) (N : Nat)
    (hr : x.rows = N) (hc : x.cols = N) :
    (∀ i j, i < N → j < N →
      (serializeRowMajor (transpose x)).getD (i * N + j) 0 = x.get j i)
    ∧ serializeRowMajor (transpose x) = serializeColMajor x := by
  subst hr
  refine ⟨fun i j hi hj => ?_, transpose_serialize_eq_colMajor x⟩
  exact transpose_data_getD x i j (hc ▸ hi) hj

/-- Witness for C10 at a concrete 2×2 matrix. -/
theorem C10_transpose_serialization_witness :
    (⟨2, 2, [1, 2, 3, 4], rfl⟩ : Matrix).rows = 2
    ∧ (⟨2, 2, [1, 2, 3, 4], rfl⟩ : Matrix).cols = 2
    ∧ (∀ i j, i < 2 → j < 2 →
        (serializeRowMajor (transpose ⟨2, 2, [1, 2, 3, 4], rfl⟩)).getD
            (i * 2 + j) 0
          = (⟨2, 2, [1, 2, 3, 4], rfl⟩ : Matrix).get j i)
    ∧ serializeRowMajor (transpose ⟨2, 2, [1, 2, 3, 4], rfl⟩)
        = serializeColMajor ⟨2, 2, [1, 2, 3, 4], rfl⟩ :=
  ⟨rfl, rfl, C10_transpose_serialization ⟨2, 2, [1, 2, 3, 4], rfl⟩ 2 rfl rfl⟩

end Gemm
